import Mathlib

/-!
Verification of the D300 LiDAR frame decoder and its streaming layers
(`src/src/lidar.rs`).

Embedding choices:
* The transport is a finite list of bytes (`List Nat`, each value `< 256` when
  produced by a real transport).  Reading past the end of the list is the only
  transport failure, matching end-of-input on the async reader; it is modelled
  by `Except Unit` where `Except.error ()` stands for the propagated
  `std::io::Error`.
* Rust `f64` angle arithmetic is embedded as exact rational arithmetic (`ℚ`):
  every claim under study concerns the algebraic structure of the computation,
  not rounding.  The one place where `f64` special values matter — the
  division by zero when `len == 1` — gets a dedicated faithful model `F64`
  with infinities and NaN, below.
* The `u8` subtraction `len - 1` in the source is wrapping 8-bit arithmetic,
  embedded as `wrapSub1U8`.
-/

/-- `ScanLine` from lidar.rs: raw sample, `distance: u16`, `intensity: u8`. -/
structure ScanLine where
  distance : Nat
  intensity : Nat
deriving DecidableEq, Repr

/-- `AngledScanLine` from lidar.rs: `distance: usize`, `intensity: usize`,
`angle: f64` (embedded as `ℚ`). -/
structure AngledScanLine where
  distance : Nat
  intensity : Nat
  angle : ℚ
deriving DecidableEq, Repr

/-- `Frame` from lidar.rs. -/
structure Frame where
  header : Nat
  message_type : Nat
  len : Nat
  speed : Nat
  start_angle : ℚ
  data : List AngledScanLine
  end_angle : ℚ
  ts : Nat
  crc : Nat
deriving DecidableEq, Repr

/-- `self.rdr.read_u8()`: take one byte from the transport, or fail at
end-of-input. -/
def readU8 : List Nat → Except Unit (Nat × List Nat)
  | [] => .error ()
  | b :: rest => .ok (b, rest)

/-- `self.rdr.read_u16_le()`: two bytes, little endian. -/
def readU16LE (bs : List Nat) : Except Unit (Nat × List Nat) :=
  match readU8 bs with
  | .error e => .error e
  | .ok (lo, bs1) =>
    match readU8 bs1 with
    | .error e => .error e
    | .ok (hi, bs2) => .ok (lo + 256 * hi, bs2)

/-- The point-reading loop `for _ in 0..len { distance; intensity }` of
`read_frame`, pushing the samples in read order. -/
def readPoints : Nat → List Nat → Except Unit (List ScanLine × List Nat)
  | 0, bs => .ok ([], bs)
  | n + 1, bs =>
    match readU16LE bs with
    | .error e => .error e
    | .ok (d, bs1) =>
      match readU8 bs1 with
      | .error e => .error e
      | .ok (inten, bs2) =>
        match readPoints n bs2 with
        | .error e => .error e
        | .ok (pts, bs3) => .ok (ScanLine.mk d inten :: pts, bs3)

/-- The wrapping `u8` subtraction `len - 1` appearing in
`(end_angle-start_angle)/(len-1) as f64` (lidar.rs line 71): for `len = 0`
the subtraction underflows and wraps to 255. -/
def wrapSub1U8 (len : Nat) : Nat := (len + 255) % 256

/-- `let angle_increment = (end_angle-start_angle)/(len-1) as f64;`
(lidar.rs line 71), in the exact-rational embedding (in `ℚ`, division by zero
yields 0; the faithful `f64` behaviour of that corner is modelled by
`pointAngleF64` below). -/
def angleIncrement (startA endA : ℚ) (len : Nat) : ℚ :=
  (endA - startA) / (wrapSub1U8 len : ℚ)

/-- The interpolation loop
`for (i, scanline) in line_buffer.into_iter().enumerate() { ... }`
(lidar.rs lines 75-82), carrying the running index `i`. -/
def interpolate (startA inc : ℚ) (i : Nat) : List ScanLine → List AngledScanLine
  | [] => []
  | sl :: rest =>
    AngledScanLine.mk sl.distance sl.intensity (startA + inc * (i : ℚ)) ::
      interpolate startA inc (i + 1) rest

/-- The body of `read_frame` after the sync byte 0x54 has been consumed
(lidar.rs lines 54-97): info byte (`message_type` = top 3 bits, `len` =
bottom 5 bits), speed, start angle, `len` point tuples, end angle,
interpolation, timestamp, crc. -/
def readFrameBody (bs : List Nat) : Except Unit (Frame × List Nat) :=
  match readU8 bs with
  | .error e => .error e
  | .ok (msgInfo, bs1) =>
    match readU16LE bs1 with
    | .error e => .error e
    | .ok (speed, bs2) =>
      match readU16LE bs2 with
      | .error e => .error e
      | .ok (startRaw, bs3) =>
        match readPoints (msgInfo % 32) bs3 with
        | .error e => .error e
        | .ok (lineBuffer, bs4) =>
          match readU16LE bs4 with
          | .error e => .error e
          | .ok (endRaw, bs5) =>
            match readU16LE bs5 with
            | .error e => .error e
            | .ok (ts, bs6) =>
              match readU8 bs6 with
              | .error e => .error e
              | .ok (crc, bs7) =>
                .ok
                  ({ header := 84
                     message_type := msgInfo / 32
                     len := msgInfo % 32
                     speed := speed
                     start_angle := (startRaw : ℚ) / 100
                     data :=
                       interpolate ((startRaw : ℚ) / 100)
                         (angleIncrement ((startRaw : ℚ) / 100)
                           ((endRaw : ℚ) / 100) (msgInfo % 32))
                         0 lineBuffer
                     end_angle := (endRaw : ℚ) / 100
                     ts := ts
                     crc := crc }, bs7)

/-- `read_frame` (lidar.rs lines 45-99): the sync loop discards bytes until
0x54 (= 84), then decodes one frame body. -/
def readFrame : List Nat → Except Unit (Frame × List Nat)
  | [] => .error ()
  | b :: rest => if b = 84 then readFrameBody rest else readFrame rest

theorem readU8_ok {bs : List Nat} {v : Nat} {rest : List Nat}
    (h : readU8 bs = .ok (v, rest)) : bs = v :: rest := by
  cases bs with
  | nil => simp [readU8] at h
  | cons b tl =>
    simp only [readU8] at h
    cases h
    rfl

theorem readU16LE_ok {bs : List Nat} {v : Nat} {rest : List Nat}
    (h : readU16LE bs = .ok (v, rest)) :
    ∃ lo hi, bs = lo :: hi :: rest ∧ v = lo + 256 * hi := by
  unfold readU16LE at h
  split at h
  · exact absurd h (by simp)
  · rename_i lo bs1 heq1
    split at h
    · exact absurd h (by simp)
    · rename_i hi bs2 heq2
      simp only [Except.ok.injEq, Prod.mk.injEq] at h
      obtain ⟨hv, hrest⟩ := h
      refine ⟨lo, hi, ?_, hv.symm⟩
      rw [readU8_ok heq1, readU8_ok heq2, hrest]

theorem readPoints_ok {n : Nat} {bs : List Nat} {pts : List ScanLine}
    {rest : List Nat} (h : readPoints n bs = .ok (pts, rest)) :
    pts.length = n ∧ bs.length = 3 * n + rest.length := by
  induction n generalizing bs pts with
  | zero =>
    simp only [readPoints, Except.ok.injEq, Prod.mk.injEq] at h
    obtain ⟨h1, h2⟩ := h
    simp [← h1, h2]
  | succ m ih =>
    unfold readPoints at h
    split at h
    · exact absurd h (by simp)
    · rename_i d bs1 heq1
      split at h
      · exact absurd h (by simp)
      · rename_i inten bs2 heq2
        split at h
        · exact absurd h (by simp)
        · rename_i pts' bs3 heq3
          simp only [Except.ok.injEq, Prod.mk.injEq] at h
          obtain ⟨hpts, hrest⟩ := h
          subst hrest
          obtain ⟨hlen, hcount⟩ := ih heq3
          obtain ⟨lo, hi, hbs, -⟩ := readU16LE_ok heq1
          have hbs1 : bs1 = inten :: bs2 := readU8_ok heq2
          subst hbs hbs1
          constructor
          · simp [← hpts, hlen]
          · simp only [List.length_cons, hcount]
            ring

/-- Fallback point for safe list indexing in statements. -/
def dummyPoint : AngledScanLine := AngledScanLine.mk 0 0 0

theorem interpolate_length (startA inc : ℚ) (i : Nat) (l : List ScanLine) :
    (interpolate startA inc i l).length = l.length := by
  induction l generalizing i with
  | nil => rfl
  | cons sl rest ih => simp [interpolate, ih]

theorem interpolate_getD (startA inc : ℚ) (i : Nat) (l : List ScanLine) :
    ∀ j, j < l.length →
      ((interpolate startA inc i l).getD j dummyPoint).angle =
        startA + inc * ((i + j : Nat) : ℚ) := by
  induction l generalizing i with
  | nil => intro j hj; simp at hj
  | cons sl rest ih =>
    intro j hj
    cases j with
    | zero => simp [interpolate]
    | succ k =>
      simp only [interpolate, List.getD_cons_succ]
      have hk : k < rest.length := by
        simp only [List.length_cons] at hj
        omega
      have hik : i + 1 + k = i + (k + 1) := by omega
      rw [ih (i + 1) k hk, hik]

theorem readFrameBody_ok_spec {bs : List Nat} {f : Frame} {rest : List Nat}
    (h : readFrameBody bs = .ok (f, rest)) :
    f.header = 84 ∧ f.len ≤ 31 ∧ f.data.length = f.len ∧
    bs.length = 10 + 3 * f.len + rest.length ∧
    (∀ i, i < f.data.length →
      (f.data.getD i dummyPoint).angle =
        f.start_angle + angleIncrement f.start_angle f.end_angle f.len * (i : ℚ)) := by
  unfold readFrameBody at h
  split at h
  · exact absurd h (by simp)
  · rename_i msgInfo bs1 heq1
    split at h
    · exact absurd h (by simp)
    · rename_i speed bs2 heq2
      split at h
      · exact absurd h (by simp)
      · rename_i startRaw bs3 heq3
        split at h
        · exact absurd h (by simp)
        · rename_i lineBuffer bs4 heq4
          split at h
          · exact absurd h (by simp)
          · rename_i endRaw bs5 heq5
            split at h
            · exact absurd h (by simp)
            · rename_i ts bs6 heq6
              split at h
              · exact absurd h (by simp)
              · rename_i crc bs7 heq7
                simp only [Except.ok.injEq, Prod.mk.injEq] at h
                obtain ⟨hf, hrest⟩ := h
                subst hrest
                obtain ⟨hplen, hpcount⟩ := readPoints_ok heq4
                have hbs : bs = msgInfo :: bs1 := readU8_ok heq1
                obtain ⟨a1, a2, hbs1, -⟩ := readU16LE_ok heq2
                obtain ⟨a3, a4, hbs2, -⟩ := readU16LE_ok heq3
                obtain ⟨a5, a6, hbs4, -⟩ := readU16LE_ok heq5
                obtain ⟨a7, a8, hbs5, -⟩ := readU16LE_ok heq6
                have hbs6 : bs6 = crc :: bs7 := readU8_ok heq7
                subst hf
                refine ⟨rfl, Nat.le_of_lt_succ (Nat.mod_lt _ (by norm_num)), ?_, ?_, ?_⟩
                · simpa [interpolate_length] using hplen
                · subst hbs hbs1 hbs2 hbs4 hbs5 hbs6
                  simp only [List.length_cons] at hpcount ⊢
                  omega
                · intro i hi
                  have hi' : i < lineBuffer.length := by
                    simpa [interpolate_length] using hi
                  simpa using interpolate_getD _ _ 0 lineBuffer i hi'

theorem readFrame_ok_spec {bs : List Nat} {f : Frame} {rest : List Nat}
    (h : readFrame bs = .ok (f, rest)) :
    f.header = 84 ∧ f.len ≤ 31 ∧ f.data.length = f.len ∧
    rest.length + 10 + 3 * f.len ≤ bs.length ∧
    (∀ i, i < f.data.length →
      (f.data.getD i dummyPoint).angle =
        f.start_angle + angleIncrement f.start_angle f.end_angle f.len * (i : ℚ)) := by
  induction bs with
  | nil => simp [readFrame] at h
  | cons b tl ih =>
    simp only [readFrame] at h
    split at h
    · obtain ⟨h1, h2, h3, h4, h5⟩ := readFrameBody_ok_spec h
      exact ⟨h1, h2, h3, by simp only [List.length_cons]; omega, h5⟩
    · obtain ⟨h1, h2, h3, h4, h5⟩ := ih h
      exact ⟨h1, h2, h3, by simp only [List.length_cons]; omega, h5⟩

/-- A successful `read_frame` consumes at least one byte: needed to show the
frame stream is well defined on a finite transport. -/
theorem readFrame_consumes {bs : List Nat} {f : Frame} {rest : List Nat}
    (h : readFrame bs = .ok (f, rest)) : rest.length < bs.length := by
  obtain ⟨-, -, -, h4, -⟩ := readFrame_ok_spec h
  omega

/-- `as_frame_stream` (lidar.rs lines 101-108): unfold `read_frame` until the
first failure; the failure itself is swallowed and the sequence ends.  On a
finite transport the resulting sequence is a finite list. -/
def frameStream (bs : List Nat) : List Frame :=
  match h : readFrame bs with
  | .error _ => []
  | .ok (f, rest) => f :: frameStream rest
termination_by bs.length
decreasing_by exact readFrame_consumes h

/-- `as_scan_line_stream` (lidar.rs lines 110-114): flatten each frame's
`data`, preserving order. -/
def pointStream (bs : List Nat) : List AngledScanLine :=
  (frameStream bs).flatMap Frame.data

/-- The per-frame angular sweep added to `covered_angle` by the closure in
`frame_in` (lidar.rs lines 121-125). -/
def sweep (f : Frame) : ℚ :=
  if f.start_angle ≤ f.end_angle then f.end_angle - f.start_angle
  else (360 - f.start_angle) + f.end_angle

/-- One step of the `frame_in` closure (lidar.rs lines 120-134): add the
sweep to `covered_angle`, append the frame's points to `line_buffer`, and if
`covered_angle >= rotations * 360.0` emit the buffer via `mem::take` (which
leaves it empty).  Note the source never resets `covered_angle`. -/
def frameInStep (rotations : Nat) (st : List AngledScanLine × ℚ) (f : Frame) :
    (List AngledScanLine × ℚ) × Option (List AngledScanLine) :=
  let covered := st.2 + sweep f
  let pending := st.1 ++ f.data
  if (rotations : ℚ) * 360 ≤ covered then (([], covered), some pending)
  else ((pending, covered), none)

/-- `frame_in`'s `filter_map` over a finite list of frames, from state `st`:
returns the final mutable state and the emitted batches in order. -/
def frameInRun (rotations : Nat) (st : List AngledScanLine × ℚ) :
    List Frame → (List AngledScanLine × ℚ) × List (List AngledScanLine)
  | [] => (st, [])
  | f :: fs =>
    let step := frameInStep rotations st f
    let res := frameInRun rotations step.1 fs
    (res.1, step.2.toList ++ res.2)

/-- `frame_in` (lidar.rs lines 116-135): the rotation-batched stream, starting
from an empty buffer and `covered_angle = 0.0`. -/
def rotationStream (rotations : Nat) (bs : List Nat) :
    List (List AngledScanLine) :=
  (frameInRun rotations ([], 0) (frameStream bs)).2

theorem frameStream_eq_nil {bs : List Nat} (h : readFrame bs = .error ()) :
    frameStream bs = [] := by
  unfold frameStream
  split
  · rfl
  · rename_i f rest heq
    rw [h] at heq
    exact absurd heq (by simp)

theorem frameStream_eq_cons {bs : List Nat} {f : Frame} {rest : List Nat}
    (h : readFrame bs = .ok (f, rest)) :
    frameStream bs = f :: frameStream rest := by
  conv_lhs => rw [frameStream]
  split
  · rename_i heq
    rw [h] at heq
    exact absurd heq (by simp)
  · rename_i f' rest' heq
    rw [h] at heq
    simp only [Except.ok.injEq, Prod.mk.injEq] at heq
    rw [heq.1, heq.2]

/-- Every point fed to the aggregator ends up either in an emitted batch (in
order) or in the final, still-pending buffer; nothing is duplicated or
reordered. -/
theorem frameInRun_conservation (rotations : Nat) (fs : List Frame) :
    ∀ st : List AngledScanLine × ℚ,
      ((frameInRun rotations st fs).2).flatten ++ (frameInRun rotations st fs).1.1 =
        st.1 ++ fs.flatMap Frame.data := by
  induction fs with
  | nil => intro st; simp [frameInRun]
  | cons f fs ih =>
    intro st
    simp only [frameInRun, frameInStep, List.flatMap_cons]
    split
    · have h2 := ih ([], st.2 + sweep f)
      simp only [List.nil_append] at h2
      simp [List.flatten_cons, List.append_assoc, h2]
    · have h2 := ih (st.1 ++ f.data, st.2 + sweep f)
      simp only [List.append_assoc] at h2
      simp [h2]

/-- A faithful model of the `f64` values reachable by the angle computation:
finite values (significand idealised as an exact rational), the two
infinities, and NaN.  Needed because in `f64`, unlike in `ℚ`, dividing a
nonzero value by zero yields an infinity and `0/0`, `inf * 0` yield NaN. -/
inductive F64 where
  | fin : ℚ → F64
  | inf : F64
  | neginf : F64
  | nan : F64
deriving DecidableEq, Repr

/-- IEEE-754 subtraction on the modelled values (finite results exact). -/
def fSub : F64 → F64 → F64
  | .fin a, .fin b => .fin (a - b)
  | .fin _, .inf => .neginf
  | .fin _, .neginf => .inf
  | .inf, .fin _ => .inf
  | .neginf, .fin _ => .neginf
  | .inf, .neginf => .inf
  | .neginf, .inf => .neginf
  | _, _ => .nan

/-- IEEE-754 division: a nonzero finite value divided by (positive) zero is a
signed infinity, and `0/0` is NaN. -/
def fDiv : F64 → F64 → F64
  | .fin a, .fin b =>
    if b = 0 then
      if a = 0 then .nan else if 0 < a then .inf else .neginf
    else .fin (a / b)
  | .fin _, .inf => .fin 0
  | .fin _, .neginf => .fin 0
  | .inf, .fin b => if 0 ≤ b then .inf else .neginf
  | .neginf, .fin b => if 0 ≤ b then .neginf else .inf
  | _, _ => .nan

/-- IEEE-754 multiplication: an infinity times zero is NaN. -/
def fMul : F64 → F64 → F64
  | .fin a, .fin b => .fin (a * b)
  | .fin a, .inf => if a = 0 then .nan else if 0 < a then .inf else .neginf
  | .fin a, .neginf => if a = 0 then .nan else if 0 < a then .neginf else .inf
  | .inf, .fin b => if b = 0 then .nan else if 0 < b then .inf else .neginf
  | .neginf, .fin b => if b = 0 then .nan else if 0 < b then .neginf else .inf
  | .inf, .inf => .inf
  | .inf, .neginf => .neginf
  | .neginf, .inf => .neginf
  | .neginf, .neginf => .inf
  | _, _ => .nan

/-- IEEE-754 addition on the modelled values. -/
def fAdd : F64 → F64 → F64
  | .fin a, .fin b => .fin (a + b)
  | .fin _, .inf => .inf
  | .fin _, .neginf => .neginf
  | .inf, .fin _ => .inf
  | .neginf, .fin _ => .neginf
  | .inf, .inf => .inf
  | .neginf, .neginf => .neginf
  | _, _ => .nan

/-- The angle assigned to point `i` of a frame, computed exactly as
lidar.rs lines 59, 68, 71 and 76 do in `f64` arithmetic:
`start = start_raw/100`, `end = end_raw/100`,
`inc = (end - start)/((len - 1 wrapping in u8) as f64)`,
`angle = start + inc * i`. -/
def pointAngleF64 (startRaw endRaw len i : Nat) : F64 :=
  let s : F64 := .fin ((startRaw : ℚ) / 100)
  let e : F64 := .fin ((endRaw : ℚ) / 100)
  let inc : F64 := fDiv (fSub e s) (.fin (wrapSub1U8 len : ℚ))
  fAdd s (fMul inc (.fin (i : ℚ)))

/-- A well-formed wire frame with `len = 2`: info byte 2, speed 0,
`start_angle_raw = 1000` (10°), points (100, 5) and (200, 6),
`end_angle_raw = 2000` (20°), timestamp 0, crc 9. -/
def exBytes2 : List Nat :=
  [84, 2, 0, 0, 232, 3, 100, 0, 5, 200, 0, 6, 208, 7, 0, 0, 9]

/-- The frame `exBytes2` decodes to: two points at 10° and 20°. -/
def exFrame2 : Frame :=
  Frame.mk 84 0 2 0 10
    [AngledScanLine.mk 100 5 10, AngledScanLine.mk 200 6 20] 20 0 9

/-- A well-formed wire frame with `len = 0`: no point tuples at all. -/
def exBytes0 : List Nat := [84, 0, 0, 0, 0, 0, 0, 0, 0, 0, 7]

/-- The frame `exBytes0` decodes to. -/
def exFrame0 : Frame := Frame.mk 84 0 0 0 0 [] 0 0 7

theorem exDecode2 : readFrame exBytes2 = .ok (exFrame2, []) := by
  norm_num [exBytes2, exFrame2, readFrame, readFrameBody, readU8, readU16LE,
    readPoints, interpolate, angleIncrement, wrapSub1U8]

theorem exDecode0 : readFrame exBytes0 = .ok (exFrame0, []) := by
  norm_num [exBytes0, exFrame0, readFrame, readFrameBody, readU8, readU16LE,
    readPoints, interpolate, angleIncrement, wrapSub1U8]

/-- A frame straddling the 0°/360° boundary: start 350°, end 10°. -/
def exWrapFrame : Frame := Frame.mk 84 0 0 0 350 [] 10 0 0

/-- Sample points used to exercise the rotation aggregator. -/
def ptA : AngledScanLine := AngledScanLine.mk 1 1 0

/-- Second sample point. -/
def ptB : AngledScanLine := AngledScanLine.mk 2 2 180

/-- Third sample point. -/
def ptC : AngledScanLine := AngledScanLine.mk 3 3 0

/-- Frame sweeping 0° to 180° (sweep 180). -/
def frameA : Frame := Frame.mk 84 0 1 0 0 [ptA] 180 0 0

/-- Frame sweeping 180° to 360° (sweep 180). -/
def frameB : Frame := Frame.mk 84 0 1 0 180 [ptB] 360 0 0

/-- Frame sweeping 0° to 5° (sweep 5). -/
def frameC : Frame := Frame.mk 84 0 1 0 0 [ptC] 5 0 0

/-- C2: prefixing any number of non-0x54 bytes before the input leaves the
decoded frame (and the remaining bytes) unchanged: the sync loop of
`read_frame` discards exactly the leading non-sync bytes. -/
theorem readFrame_resync (junk bs : List Nat) (hj : ∀ b ∈ junk, b ≠ 84) :
    readFrame (junk ++ bs) = readFrame bs := by
  induction junk with
  | nil => rfl
  | cons b tl ih =>
    have hb : b ≠ 84 := hj b (by simp)
    simp only [List.cons_append, readFrame, if_neg hb]
    exact ih fun x hx => hj x (by simp [hx])

theorem readFrame_resync_witness :
    readFrame ([0, 1] ++ exBytes2) = readFrame exBytes2 :=
  readFrame_resync [0, 1] exBytes2 (by decide)

/-- C3: a decoded frame's `len` is the bottom 5 bits of the info byte, hence
at most 31, and its point list has exactly `len` entries; the point-reading
loop consumes exactly 3 bytes per requested point. -/
theorem len_bounded_and_exact_reads (bs : List Nat) (f : Frame)
    (rest : List Nat) (n : Nat) (pbs : List Nat) (pts : List ScanLine)
    (prest : List Nat) (hok : readFrame bs = .ok (f, rest))
    (hpts : readPoints n pbs = .ok (pts, prest)) :
    f.len ≤ 31 ∧ f.data.length = f.len ∧
    pts.length = n ∧ pbs.length = 3 * n + prest.length := by
  obtain ⟨-, h2, h3, -, -⟩ := readFrame_ok_spec hok
  obtain ⟨p1, p2⟩ := readPoints_ok hpts
  exact ⟨h2, h3, p1, p2⟩

theorem len_bounded_and_exact_reads_witness :
    exFrame2.len ≤ 31 ∧ exFrame2.data.length = exFrame2.len ∧
    ([ScanLine.mk 100 5, ScanLine.mk 200 6] : List ScanLine).length = 2 ∧
    ([100, 0, 5, 200, 0, 6] : List Nat).length = 3 * 2 + ([] : List Nat).length :=
  len_bounded_and_exact_reads exBytes2 exFrame2 [] 2 [100, 0, 5, 200, 0, 6]
    [ScanLine.mk 100 5, ScanLine.mk 200 6] [] exDecode2 (by rfl)

/-- C4: for a decoded frame with `len ≥ 2`, point `i` carries angle
`start_angle + (end_angle - start_angle)/(len-1) * i`; in particular the
first point's angle is exactly `start_angle` and consecutive points differ
by exactly the increment. -/
theorem interpolation_exact (bs : List Nat) (f : Frame) (rest : List Nat)
    (i j : Nat) (hok : readFrame bs = .ok (f, rest)) (h2 : 2 ≤ f.len)
    (hi : i < f.data.length) (hj : j + 1 < f.data.length) :
    (f.data.getD i dummyPoint).angle =
      f.start_angle +
        (f.end_angle - f.start_angle) / ((f.len : ℚ) - 1) * ((i : Nat) : ℚ) ∧
    (f.data.getD 0 dummyPoint).angle = f.start_angle ∧
    (f.data.getD (j + 1) dummyPoint).angle - (f.data.getD j dummyPoint).angle =
      (f.end_angle - f.start_angle) / ((f.len : ℚ) - 1) := by
  obtain ⟨-, hcap, hlen, -, hang⟩ := readFrame_ok_spec hok
  have hsub : wrapSub1U8 f.len = f.len - 1 := by
    unfold wrapSub1U8
    omega
  have hinc : angleIncrement f.start_angle f.end_angle f.len =
      (f.end_angle - f.start_angle) / ((f.len : ℚ) - 1) := by
    unfold angleIncrement
    rw [hsub, Nat.cast_sub (by omega : 1 ≤ f.len), Nat.cast_one]
  refine ⟨?_, ?_, ?_⟩
  · rw [hang i hi, hinc]
  · rw [hang 0 (by omega), hinc]
    simp
  · rw [hang (j + 1) hj, hang j (by omega), hinc]
    push_cast
    ring

theorem interpolation_exact_witness :
    (exFrame2.data.getD 1 dummyPoint).angle =
      exFrame2.start_angle +
        (exFrame2.end_angle - exFrame2.start_angle) / ((exFrame2.len : ℚ) - 1) *
          ((1 : Nat) : ℚ) ∧
    (exFrame2.data.getD 0 dummyPoint).angle = exFrame2.start_angle ∧
    (exFrame2.data.getD (0 + 1) dummyPoint).angle -
        (exFrame2.data.getD 0 dummyPoint).angle =
      (exFrame2.end_angle - exFrame2.start_angle) / ((exFrame2.len : ℚ) - 1) :=
  interpolation_exact exBytes2 exFrame2 [] 1 0 exDecode2
    (by norm_num [exFrame2]) (by norm_num [exFrame2]) (by norm_num [exFrame2])

/-- C5: the sweep added to `covered_angle` for each incoming frame is
`end - start` when `start ≤ end` and `(360 - start) + end` otherwise, and a
frame with start 350° and end 10° contributes exactly 20°, not a negative
value. -/
theorem sweep_formula (rotations : Nat) (st : List AngledScanLine × ℚ)
    (f g : Frame) (hf : f.start_angle ≤ f.end_angle)
    (hg : g.end_angle < g.start_angle) :
    sweep f = f.end_angle - f.start_angle ∧
    sweep g = (360 - g.start_angle) + g.end_angle ∧
    (frameInStep rotations st f).1.2 = st.2 + sweep f ∧
    sweep exWrapFrame = 20 := by
  refine ⟨by simp [sweep, hf], by simp [sweep, not_le.mpr hg], ?_,
    by norm_num [sweep, exWrapFrame]⟩
  simp only [frameInStep]
  split <;> rfl

theorem sweep_formula_witness :
    sweep exFrame2 = exFrame2.end_angle - exFrame2.start_angle ∧
    sweep exWrapFrame = (360 - exWrapFrame.start_angle) + exWrapFrame.end_angle ∧
    (frameInStep 1 ([], 0) exFrame2).1.2 = 0 + sweep exFrame2 ∧
    sweep exWrapFrame = 20 :=
  sweep_formula 1 ([], 0) exFrame2 exWrapFrame (by norm_num [exFrame2])
    (by norm_num [exWrapFrame])

/-- C1 (refuting the reset): after the batch emitted on `frameB` (sweeps
180 + 180 = 360 ≥ 1 * 360), the pending buffer is indeed left empty by
`mem::take`, but `covered_angle` is NOT reset to 0.0 — it stays at 360, so
the next frame (`frameC`, sweep 5) immediately trips the threshold again:
the run over three frames ends with `covered_angle = 365` and TWO emitted
batches, where the claim predicts `covered_angle = 5` and exactly one batch. -/
theorem frameIn_never_resets_covered_angle :
    frameInRun 1 ([], 0) [frameA, frameB, frameC] =
      ((([], 365), [[ptA, ptB], [ptC]])) := by
  norm_num [frameInRun, frameInStep, sweep, frameA, frameB, frameC]

/-- C6 (refuting the explicit decision): for a frame with `len == 1` the
code takes no special branch: it evaluates `(end-start)/((1-1) as f64)`,
an `f64` division by zero, and the single point (index 0) is assigned
`start + (±inf or NaN) * 0 = NaN`.  The result is IEEE-undefined for every
possible start/end angle, not a defined choice such as increment = 0. -/
theorem len1_angle_is_nan (startRaw endRaw : Nat) :
    pointAngleF64 startRaw endRaw 1 0 = F64.nan ∧ wrapSub1U8 1 = 0 := by
  constructor
  · have h0 : ((wrapSub1U8 1 : Nat) : ℚ) = 0 := by norm_num [wrapSub1U8]
    simp only [pointAngleF64, fSub, h0]
    rcases lt_trichotomy ((endRaw : ℚ) / 100 - (startRaw : ℚ) / 100) 0 with
      hlt | heq0 | hgt
    · simp [fDiv, hlt.ne, not_lt.mpr hlt.le, fMul, fAdd]
    · simp [fDiv, heq0, fMul, fAdd]
    · simp [fDiv, hgt.ne', hgt, fMul, fAdd]
  · norm_num [wrapSub1U8]

/-- C7: a single `read_frame` call either surfaces the transport error
directly or returns a fully populated frame — header byte 0x54 present and
the payload holding exactly `len` points; no partial frame is ever
returned. -/
theorem decode_error_or_complete (bs : List Nat) :
    readFrame bs = .error () ∨
    ∃ f rest, readFrame bs = .ok (f, rest) ∧ f.header = 84 ∧
      f.data.length = f.len ∧ f.len ≤ 31 := by
  cases h : readFrame bs with
  | error e =>
    left
    cases e
    rfl
  | ok p =>
    right
    obtain ⟨f, rest⟩ := p
    obtain ⟨h1, h2, h3, -, -⟩ := readFrame_ok_spec h
    exact ⟨f, rest, rfl, h1, h3, h2⟩

/-- C8: a failing decode ends all three sequences with no error item
delivered — the frame, point and rotation streams of a failing transport are
empty — while a successful decode prepends its frame (resp. its points) and
continues with the remaining bytes. -/
theorem first_failure_ends_streams (rotations : Nat) (bsE bsO : List Nat)
    (f : Frame) (rest : List Nat) (herr : readFrame bsE = .error ())
    (hok : readFrame bsO = .ok (f, rest)) :
    frameStream bsE = [] ∧ pointStream bsE = [] ∧
    rotationStream rotations bsE = [] ∧
    frameStream bsO = f :: frameStream rest ∧
    pointStream bsO = f.data ++ pointStream rest := by
  have h1 := frameStream_eq_nil herr
  have h2 := frameStream_eq_cons hok
  refine ⟨h1, ?_, ?_, h2, ?_⟩
  · simp [pointStream, h1]
  · simp [rotationStream, h1, frameInRun]
  · simp [pointStream, h2]

theorem first_failure_ends_streams_witness :
    frameStream [] = [] ∧ pointStream [] = [] ∧ rotationStream 1 [] = [] ∧
    frameStream exBytes2 = exFrame2 :: frameStream [] ∧
    pointStream exBytes2 = exFrame2.data ++ pointStream [] :=
  first_failure_ends_streams 1 [] exBytes2 exFrame2 [] rfl exDecode2

/-- C9: every point of every decoded frame lands either in an emitted batch
or in the aggregator's final pending buffer, which the stream never
delivers; in particular a transport holding one frame of sweep 10° yields
points on the point stream but no batch at all on the rotation stream. -/
theorem pending_dropped_at_end (rotations : Nat) (bs : List Nat) :
    (rotationStream rotations bs).flatten ++
        (frameInRun rotations ([], 0) (frameStream bs)).1.1 =
      (frameStream bs).flatMap Frame.data ∧
    rotationStream 1 exBytes2 = [] ∧
    pointStream exBytes2 = exFrame2.data := by
  have hfs : frameStream exBytes2 = [exFrame2] := by
    rw [frameStream_eq_cons exDecode2, @frameStream_eq_nil [] rfl]
  refine ⟨?_, ?_, ?_⟩
  · simpa [rotationStream] using
      frameInRun_conservation rotations (frameStream bs) ([], 0)
  · norm_num [rotationStream, hfs, frameInRun, frameInStep, sweep, exFrame2]
  · simp [pointStream, hfs]

/-- C10: the `len - 1` in the angle-increment expression is unsigned 8-bit
arithmetic, so for `len = 0` it wraps to 255 (the checked-build alternative
being a panic) and the increment denominator becomes 255; yet a `len = 0`
frame interpolates no point at all — its `data` is empty. -/
theorem len0_wrapping_underflow (bs : List Nat) (f : Frame)
    (rest : List Nat) (s e : ℚ) (hok : readFrame bs = .ok (f, rest))
    (hlen : f.len = 0) :
    wrapSub1U8 0 = 255 ∧ angleIncrement s e 0 = (e - s) / 255 ∧ f.data = [] := by
  refine ⟨by norm_num [wrapSub1U8], by norm_num [angleIncrement, wrapSub1U8], ?_⟩
  have h3 := (readFrame_ok_spec hok).2.2.1
  rw [hlen] at h3
  exact List.length_eq_zero.mp h3

theorem len0_wrapping_underflow_witness :
    wrapSub1U8 0 = 255 ∧
    angleIncrement 0 (1 / 2) 0 = ((1 / 2 : ℚ) - 0) / 255 ∧
    exFrame0.data = [] :=
  len0_wrapping_underflow exBytes0 exFrame0 [] 0 (1 / 2) exDecode0 rfl
